import Mathlib

/-!
# SQL management worklist (`sqle/model/sql_manage.go`)

Shallow embedding of the storage layer of the SQL management worklist:

* `GetSqlManageListByReq`: the summary counters computed over the rows a
  query returns;
* `GetSqlManageByFingerprintSourceInstNameSchemaMd5`: lookup by dedup key;
* `InsertOrUpdateSqlManage`: the `INSERT ... ON DUPLICATE KEY UPDATE`
  statement, as a state transformer on the `sql_manages` table;
* `sqlManageBodyTpl`: the conditional `WHERE` clause of the list query.

Strings are Lean strings, `uint64` counters are naturals reduced modulo
`2 ^ 64`, a `*time.Time` is an optional integer instant.
-/

namespace Sqle

/-! ## Constants -/

def SQLManageStatusUnhandled : String := "unhandled"
def SQLManageStatusSolved : String := "solved"
def SQLManageStatusIgnored : String := "ignored"

def SQLManageSourceAuditPlan : String := "audit_plan"
def SQLManageSourceSqlAuditRecord : String := "sql_audit_record"

/-- Width of the `uint64` counters of `SqlManageResp`. -/
def uint64Size : Nat := 2 ^ 64

/-- Largest value of Go's `int` on a 64-bit target: the bound on `len` of a slice. -/
def maxInt : Nat := 2 ^ 63 - 1

/-! ## Errors -/

/-- Errors the database layer hands back. `recordNotFound` is
`gorm.ErrRecordNotFound`; `wrap` is an error whose `Unwrap` yields `inner`. -/
inductive GoError where
  | recordNotFound
  | other (msg : String)
  | wrap (msg : String) (inner : GoError)
  deriving DecidableEq, Repr

/-- The test `errors.Is(err, gorm.ErrRecordNotFound)` of the standard
library: walks the `Unwrap` chain; a nil error is never a match. -/
def isRecordNotFound : GoError → Bool
  | .recordNotFound => true
  | .other _ => false
  | .wrap _ inner => isRecordNotFound inner

def errorsIs (err : Option GoError) : Bool :=
  match err with
  | none => false
  | some e => isRecordNotFound e

inductive ErrorCode where
  | ConnectStorageError
  deriving DecidableEq, Repr

structure CodeError where
  code : ErrorCode
  err : GoError
  deriving DecidableEq, Repr

/-- Modelled from the spec: `errors.New` of the package `sqle/errors`, which
is declared outside this file. It maps a nil cause to nil and a non-nil
cause to a non-nil error carrying the code and the cause. -/
def errorsNew (code : ErrorCode) (err : Option GoError) : Option CodeError :=
  match err with
  | none => none
  | some e => some { code := code, err := e }

/-! ## Rows of the list query and the response -/

/-- One row of the list query (`SqlManageDetail`). -/
structure SqlManageDetail where
  ID : Nat
  SqlFingerprint : String
  SqlText : String
  Source : String
  AuditLevel : String
  AuditResults : String
  FpCount : Nat
  AppearTimestamp : Option Int
  LastReceiveTimestamp : Option Int
  InstanceName : String
  SchemaName : String
  Status : String
  Remark : String
  Assignees : List String
  ApName : Option String
  SqlAuditRecordID : Option String
  deriving DecidableEq, Repr

structure SqlManageResp where
  SqlManageList : List SqlManageDetail
  SqlManageTotalNum : Nat
  SqlManageBadNum : Nat
  SqlManageOptimizedNum : Nat
  deriving DecidableEq, Repr

/-- The body of the `for ... range sqlManageList` loop: the pair
`(badSqlCount, solvedCount)` after one more row. `+= 1` on a `uint64`
wraps at `2 ^ 64`. -/
def countStep (acc : Nat × Nat) (sqlManage : SqlManageDetail) : Nat × Nat :=
  let badSqlCount :=
    if sqlManage.AuditLevel ≠ "" ∧ sqlManage.Status ≠ SQLManageStatusSolved then
      (acc.1 + 1) % uint64Size
    else acc.1
  let solvedCount :=
    if sqlManage.Status = SQLManageStatusSolved then
      (acc.2 + 1) % uint64Size
    else acc.2
  (badSqlCount, solvedCount)

/-- `GetSqlManageListByReq`, given what `getListResult` produced for the
request: an error, or the rows of the query. -/
def GetSqlManageListByReq (queryResult : Except CodeError (List SqlManageDetail)) :
    Except CodeError SqlManageResp :=
  match queryResult with
  | .error err => .error err
  | .ok sqlManageList =>
    let totalCount := sqlManageList.length
    let counts := sqlManageList.foldl countStep (0, 0)
    .ok { SqlManageList := sqlManageList
          SqlManageTotalNum := totalCount % uint64Size
          SqlManageBadNum := counts.1
          SqlManageOptimizedNum := counts.2 }

/-- A row counted as bad: it has an audit level and is not solved. -/
def isBad (d : SqlManageDetail) : Bool :=
  decide (d.AuditLevel ≠ "" ∧ d.Status ≠ SQLManageStatusSolved)

/-- A row counted as solved. -/
def isSolved (d : SqlManageDetail) : Bool :=
  decide (d.Status = SQLManageStatusSolved)

/-! ## Lookup by dedup key -/

/-- The Go struct `SqlManage`. `ID` and `DeletedAt` come from the embedded
`Model`; `Assignees` holds user ids. -/
structure SqlManage where
  ID : Nat
  DeletedAt : Option Int
  SqlFingerprint : String
  ProjFpSourceInstSchemaMd5 : String
  SqlText : String
  Source : String
  AuditLevel : String
  AuditResults : String
  FpCount : Nat
  FirstAppearTimestamp : Option Int
  LastReceiveTimestamp : Option Int
  InstanceName : String
  SchemaName : String
  Assignees : List Nat
  Status : String
  Remark : String
  ProjectId : Nat
  AuditPlanId : Nat
  SqlAuditRecordId : Nat
  deriving DecidableEq, Repr

/-- The zero value `&SqlManage{}`. -/
def SqlManage.zero : SqlManage :=
  { ID := 0, DeletedAt := none, SqlFingerprint := "", ProjFpSourceInstSchemaMd5 := ""
    SqlText := "", Source := "", AuditLevel := "", AuditResults := "", FpCount := 0
    FirstAppearTimestamp := none, LastReceiveTimestamp := none, InstanceName := ""
    SchemaName := "", Assignees := [], Status := "", Remark := "", ProjectId := 0
    AuditPlanId := 0, SqlAuditRecordId := 0 }

/-- What `s.db.Where(...).Find(sqlManage)` did: the struct after the call
(filled in when a row was found, left at its zero value otherwise) and the
`Error` field of the result. -/
structure FindResult where
  sqlManage : SqlManage
  Error : Option GoError
  deriving DecidableEq, Repr

/-- `GetSqlManageByFingerprintSourceInstNameSchemaMd5`, given the outcome of
the `Find` call for the key. -/
def GetSqlManageByFingerprintSourceInstNameSchemaMd5 (found : FindResult) :
    SqlManage × Bool × Option CodeError :=
  let err := found.Error
  if errorsIs err then
    (found.sqlManage, false, none)
  else
    (found.sqlManage, true, errorsNew .ConnectStorageError err)

/-! ## The table `sql_manages` and the upsert statement -/

/-- Modelled from the spec: the embedded struct `Model` is declared outside
this file; it supplies the surrogate `id` and the soft-delete marker
`deleted_at` that the statements of this file name. A row of `sql_manages`
carries those two and the sixteen columns of the `INSERT`. -/
structure SqlManageRow where
  id : Nat
  deleted_at : Option Int
  sql_fingerprint : String
  proj_fp_source_inst_schema_md5 : String
  sql_text : String
  source : String
  audit_level : String
  audit_results : String
  fp_count : Nat
  first_appear_timestamp : Option Int
  last_receive_timestamp : Option Int
  instance_name : String
  schema_name : String
  status : String
  remark : String
  audit_plan_id : Nat
  project_id : Nat
  sql_audit_record_id : Nat
  deriving DecidableEq, Repr

/-- The database: the table `sql_manages`, the many-to-many table
`sql_manage_assignees` as pairs `(sql_manage_id, user_id)`, and the next
auto-increment id of `sql_manages`. -/
structure Storage where
  sql_manages : List SqlManageRow
  sql_manage_assignees : List (Nat × Nat)
  nextId : Nat
  deriving DecidableEq, Repr

/-- The users assigned to the row `id`. -/
def Storage.assigneesOf (s : Storage) (id : Nat) : List Nat :=
  (s.sql_manage_assignees.filter (fun p => p.1 = id)).map (fun p => p.2)

/-- The rows holding the dedup key `key`. -/
def Storage.rowsWithKey (s : Storage) (key : String) : List SqlManageRow :=
  s.sql_manages.filter (fun r => r.proj_fp_source_inst_schema_md5 = key)

/-- The dedup keys of the table, row by row. -/
def Storage.keys (s : Storage) : List String :=
  s.sql_manages.map (fun r => r.proj_fp_source_inst_schema_md5)

/-- The row the `INSERT` creates from one tuple of `VALUES`: the sixteen
listed columns come from the tuple, `id` is the auto-increment value and
`deleted_at` is NULL. -/
def insertedRow (id : Nat) (v : SqlManage) : SqlManageRow :=
  { id := id
    deleted_at := none
    sql_fingerprint := v.SqlFingerprint
    proj_fp_source_inst_schema_md5 := v.ProjFpSourceInstSchemaMd5
    sql_text := v.SqlText
    source := v.Source
    audit_level := v.AuditLevel
    audit_results := v.AuditResults
    fp_count := v.FpCount
    first_appear_timestamp := v.FirstAppearTimestamp
    last_receive_timestamp := v.LastReceiveTimestamp
    instance_name := v.InstanceName
    schema_name := v.SchemaName
    status := v.Status
    remark := v.Remark
    audit_plan_id := v.AuditPlanId
    project_id := v.ProjectId
    sql_audit_record_id := v.SqlAuditRecordId }

/-- The `ON DUPLICATE KEY UPDATE` assignments, applied to the stored row `r`
for the incoming tuple `v`: the eight listed columns take `VALUES(col)`. -/
def onDuplicateKeyUpdate (r : SqlManageRow) (v : SqlManage) : SqlManageRow :=
  { r with
    sql_text := v.SqlText
    audit_plan_id := v.AuditPlanId
    sql_audit_record_id := v.SqlAuditRecordId
    audit_level := v.AuditLevel
    audit_results := v.AuditResults
    fp_count := v.FpCount
    first_appear_timestamp := v.FirstAppearTimestamp
    last_receive_timestamp := v.LastReceiveTimestamp }

/-- One tuple of `VALUES`: when a stored row holds the tuple's value of the
unique index `proj_fp_source_inst_schema_md5`, that row is updated in place;
otherwise a new row is inserted. The index compares keys as strings,
character by character. -/
def upsertTuple (s : Storage) (v : SqlManage) : Storage :=
  if s.sql_manages.any
      (fun r => decide (r.proj_fp_source_inst_schema_md5 = v.ProjFpSourceInstSchemaMd5)) then
    { s with
      sql_manages := s.sql_manages.map (fun r =>
        if r.proj_fp_source_inst_schema_md5 = v.ProjFpSourceInstSchemaMd5 then
          onDuplicateKeyUpdate r v
        else r) }
  else
    { s with
      sql_manages := s.sql_manages ++ [insertedRow s.nextId v]
      nextId := s.nextId + 1 }

/-- The tuples of `VALUES` are processed in order. -/
def upsertAll (s : Storage) (sqlManageList : List SqlManage) : Storage :=
  sqlManageList.foldl upsertTuple s

/-- The call `s.db.Exec(raw, args...)`: the new state of the database and the
`Error` field. `fault` is a failure of the database other than those of the
statement itself (connection lost, timeout): the statement then changes
nothing. With no tuple, `strings.Join` yields the empty string and the
statement `VALUES ON DUPLICATE KEY UPDATE` is rejected as a syntax error. -/
def dbExec (fault : Option GoError) (s : Storage) (sqlManageList : List SqlManage) :
    Storage × Option GoError :=
  match fault with
  | some e => (s, some e)
  | none =>
    match sqlManageList with
    | [] => (s, some (.other "You have an error in your SQL syntax"))
    | v :: vs => (upsertAll s (v :: vs), none)

/-- `InsertOrUpdateSqlManage`: the database after the call and the error
returned. -/
def InsertOrUpdateSqlManage (fault : Option GoError) (s : Storage)
    (sqlManageList : List SqlManage) : Storage × Option CodeError :=
  let res := dbExec fault s sqlManageList
  (res.1, errorsNew .ConnectStorageError res.2)

/-- Successive calls of `InsertOrUpdateSqlManage`, none of them hit by a
fault of the database, one batch a call. -/
def submitBatches (s : Storage) (batches : List (List SqlManage)) : Storage :=
  batches.foldl (fun st b => (InsertOrUpdateSqlManage none st b).1) s

/-- The last tuple of a batch that carries the key `key`. -/
def lastWithKey (key : String) (sqlManageList : List SqlManage) : Option SqlManage :=
  (sqlManageList.filter (fun v => v.ProjFpSourceInstSchemaMd5 = key)).getLast?

/-- A raw finding standing for one occurrence of the key `key`, observed at
`observedAt`: the count it carries is one and both timestamps are the
observation time. -/
def finding (key : String) (observedAt : Int) : SqlManage :=
  { SqlManage.zero with
    ProjFpSourceInstSchemaMd5 := key
    FpCount := 1
    FirstAppearTimestamp := some observedAt
    LastReceiveTimestamp := some observedAt
    Status := SQLManageStatusUnhandled }

/-! ## The `WHERE` clause of the list query (`sqlManageBodyTpl`) -/

/-- A value of the map `data` (`interface{}`): nil, a string or an integer. -/
inductive GoValue where
  | nil
  | str (s : String)
  | int (n : Int)
  deriving DecidableEq, Repr

/-- The argument `data map[string]interface` of the template: `none` for a
key the map does not hold. -/
abbrev Data := String → Option GoValue

/-- The map without the key `key`. -/
def Data.remove (data : Data) (key : String) : Data :=
  fun k => if k = key then none else data k

/-- Truth of `if .key` in `text/template`: a missing key, nil, the empty
string and zero are false. -/
def truth : Option GoValue → Bool
  | none => false
  | some .nil => false
  | some (.str s) => decide (s ≠ "")
  | some (.int n) => decide (n ≠ 0)

/-- The text `text/template` prints for a value. -/
def printValue : GoValue → String
  | .nil => "<nil>"
  | .str s => s
  | .int n => toString n

/-- The text spliced in for the action that prints `.key`. -/
def printed (v : Option GoValue) : String :=
  match v with
  | none => "<no value>"
  | some x => printValue x

/-- How the database compares a column with the value bound to a named
parameter: `column = :name` on a string column, `column >= :name` and
`column <= :name` on a timestamp column. The columns are not NULL here. -/
structure Binder where
  eqString : String → GoValue → Bool
  geTime : Int → GoValue → Bool
  leTime : Int → GoValue → Bool

/-- The comparisons for a string bound to a string column and an instant
bound to a timestamp column; a value of another kind matches nothing. -/
def plainBinder : Binder where
  eqString := fun c v => match v with
    | .str s => decide (c = s)
    | _ => false
  geTime := fun t v => match v with
    | .int n => decide (n ≤ t)
    | _ => false
  leTime := fun t v => match v with
    | .int n => decide (t ≤ n)
    | _ => false

/-- The comparison `column = :name`: NULL on either side, or a parameter the
map does not hold, selects no row. -/
def eqParam (b : Binder) (column : Option String) (param : Option GoValue) : Bool :=
  match column, param with
  | some c, some v => b.eqString c v
  | _, _ => false

/-- The comparison `column >= :name`. -/
def geParam (b : Binder) (column : Option Int) (param : Option GoValue) : Bool :=
  match column, param with
  | some t, some v => b.geTime t v
  | _, _ => false

/-- The comparison `column <= :name`. -/
def leParam (b : Binder) (column : Option Int) (param : Option GoValue) : Bool :=
  match column, param with
  | some t, some v => b.leTime t v
  | _, _ => false

/-- A row of the `FROM` clause: a row of `sql_manages` with the columns of
the tables joined to it by `LEFT JOIN` that the query names (NULL when the
join finds no partner). -/
structure JoinedRow where
  sm : SqlManageRow
  p_name : Option String
  u_login_name : Option String
  ap_name : Option String
  sar_audit_record_id : Option String
  deriving DecidableEq, Repr

/-- Whether `f` holds of some suffix of the text (the text itself, the text
without its first character, ..., the empty text). -/
def anySuffix (f : List Char → Bool) : List Char → Bool
  | [] => f []
  | c :: cs => f (c :: cs) || anySuffix f cs

/-- The operator `LIKE` on a pattern without escape character: `%` matches
any run of characters, `_` any single character, any other character
itself. -/
def likeMatch : List Char → List Char → Bool
  | [], s => s.isEmpty
  | p :: ps, s =>
    if p = '%' then anySuffix (likeMatch ps) s
    else
      match s with
      | [] => false
      | c :: cs => (decide (p = '_') || decide (p = c)) && likeMatch ps cs

/-- Reads a string literal of the statement from the character after its
opening quote: the content of the literal and the text of the statement
that follows the closing quote. Two quotes in a row stand for one quote in
the content; `none` for a literal that is not closed or that holds a
backslash escape. -/
def readLiteral : List Char → Option (List Char × List Char)
  | [] => none
  | c :: rest =>
    if c = '\'' then
      match rest with
      | d :: rest2 =>
        if d = '\'' then (readLiteral rest2).map (fun p => ('\'' :: p.1, p.2))
        else some ([], d :: rest2)
      | [] => some ([], [])
    else if c = '\\' then none
    else (readLiteral rest).map (fun p => (c :: p.1, p.2))

/-- The text the template renders for the fingerprint filter: the value is
printed between the two `%` of the literal. -/
def renderFingerprintClause (text : String) : String :=
  "AND sm.sql_fingerprint LIKE '%" ++ text ++ "%'"

/-- The predicate `sm.sql_fingerprint LIKE '%text%'` as the database reads
it: the literal is the text up to its closing quote. `none` when the
rendered text does not end with that literal, so that the statement is not
the one the template spells out. -/
def fingerprintLike (text : String) (sql_fingerprint : String) : Option Bool :=
  match readLiteral (('%' :: text.toList) ++ ['%', '\'']) with
  | some (pattern, []) => some (likeMatch pattern sql_fingerprint.toList)
  | _ => none

/-- One predicate of the `WHERE` clause, as rendered. -/
inductive Clause where
  | projectName
  | deletedAtIsNull
  | fingerprintLike (text : String)
  | assignee
  | instanceName
  | source
  | auditLevel
  | lastAuditStartTimeFrom
  | lastAuditStartTimeTo
  | status
  deriving DecidableEq, Repr

/-- The `WHERE` clause `sqlManageBodyTpl` renders for `data`: the predicates
joined by `AND`, in the order of the template. -/
def sqlManageBodyTpl (data : Data) : List Clause :=
  [Clause.projectName, Clause.deletedAtIsNull]
  ++ (if truth (data "fuzzy_search_sql_fingerprint") then
        [Clause.fingerprintLike (printed (data "fuzzy_search_sql_fingerprint"))] else [])
  ++ (if truth (data "filter_assignee") then [Clause.assignee] else [])
  ++ (if truth (data "filter_instance_name") then [Clause.instanceName] else [])
  ++ (if truth (data "filter_source") then [Clause.source] else [])
  ++ (if truth (data "filter_audit_level") then [Clause.auditLevel] else [])
  ++ (if truth (data "filter_last_audit_start_time_from") then
        [Clause.lastAuditStartTimeFrom] else [])
  ++ (if truth (data "filter_last_audit_start_time_to") then
        [Clause.lastAuditStartTimeTo] else [])
  ++ (if truth (data "filter_status") then [Clause.status] else [])

/-- The value of one predicate on a row of the `FROM` clause. -/
def evalClause (b : Binder) (data : Data) (r : JoinedRow) : Clause → Option Bool
  | .projectName => some (eqParam b r.p_name (data "project_name"))
  | .deletedAtIsNull => some r.sm.deleted_at.isNone
  | .fingerprintLike text => fingerprintLike text r.sm.sql_fingerprint
  | .assignee => some (eqParam b r.u_login_name (data "filter_assignee"))
  | .instanceName => some (eqParam b (some r.sm.instance_name) (data "filter_instance_name"))
  | .source => some (eqParam b (some r.sm.source) (data "filter_source"))
  | .auditLevel => some (eqParam b (some r.sm.audit_level) (data "filter_audit_level"))
  | .lastAuditStartTimeFrom =>
    some (geParam b r.sm.last_receive_timestamp (data "filter_last_audit_start_time_from"))
  | .lastAuditStartTimeTo =>
    some (leParam b r.sm.last_receive_timestamp (data "filter_last_audit_start_time_to"))
  | .status => some (eqParam b (some r.sm.status) (data "filter_status"))

/-- The conjunction of a list of predicate values; `none` as soon as one of
them is. -/
def allHold : List (Option Bool) → Option Bool
  | [] => some true
  | none :: _ => none
  | some x :: rest => (allHold rest).map (fun y => x && y)

/-- Whether the row `r` of the `FROM` clause satisfies the `WHERE` clause
rendered for `data`. -/
def bodyCondition (b : Binder) (data : Data) (r : JoinedRow) : Option Bool :=
  allHold ((sqlManageBodyTpl data).map (evalClause b data r))

/-- The optional filters of the query. -/
inductive Filter where
  | fingerprint
  | assignee
  | instanceName
  | source
  | auditLevel
  | lastAuditStartTimeFrom
  | lastAuditStartTimeTo
  | status
  deriving DecidableEq, Repr

def allFilters : List Filter :=
  [.fingerprint, .assignee, .instanceName, .source, .auditLevel,
   .lastAuditStartTimeFrom, .lastAuditStartTimeTo, .status]

/-- The key of the map a filter is read from. -/
def Filter.key : Filter → String
  | .fingerprint => "fuzzy_search_sql_fingerprint"
  | .assignee => "filter_assignee"
  | .instanceName => "filter_instance_name"
  | .source => "filter_source"
  | .auditLevel => "filter_audit_level"
  | .lastAuditStartTimeFrom => "filter_last_audit_start_time_from"
  | .lastAuditStartTimeTo => "filter_last_audit_start_time_to"
  | .status => "filter_status"

/-- The predicate of a filter on a row, for the value the map holds: the
fingerprint pattern is `%`, the printed value, `%`. -/
def Filter.holds (b : Binder) (data : Data) (r : JoinedRow) : Filter → Bool
  | .fingerprint =>
    likeMatch (('%' :: (printed (data "fuzzy_search_sql_fingerprint")).toList) ++ ['%'])
      r.sm.sql_fingerprint.toList
  | .assignee => eqParam b r.u_login_name (data "filter_assignee")
  | .instanceName => eqParam b (some r.sm.instance_name) (data "filter_instance_name")
  | .source => eqParam b (some r.sm.source) (data "filter_source")
  | .auditLevel => eqParam b (some r.sm.audit_level) (data "filter_audit_level")
  | .lastAuditStartTimeFrom =>
    geParam b r.sm.last_receive_timestamp (data "filter_last_audit_start_time_from")
  | .lastAuditStartTimeTo =>
    leParam b r.sm.last_receive_timestamp (data "filter_last_audit_start_time_to")
  | .status => eqParam b (some r.sm.status) (data "filter_status")

/-- The condition in the words of the specification: the project name is
the requested one, the row is not soft-deleted, and the predicate of every
filter that counts as supplied holds. `supplied` tells which values of the
map count as a supplied filter. -/
def conjunctionOfSupplied (supplied : Option GoValue → Bool) (b : Binder) (data : Data)
    (r : JoinedRow) : Bool :=
  eqParam b r.p_name (data "project_name") && r.sm.deleted_at.isNone &&
    allFilters.all (fun f => !supplied (data f.key) || f.holds b data r)

/-- A filter is present in the map: the map holds its key. -/
def presentInMap (v : Option GoValue) : Bool := v.isSome

/-- The fingerprint value stays inside the literal it is printed in: when
the filter is rendered, its text has no quote and no backslash. -/
def fingerprintStaysInLiteral (data : Data) : Bool :=
  !truth (data "fuzzy_search_sql_fingerprint") ||
    (printed (data "fuzzy_search_sql_fingerprint")).toList.all
      (fun c => decide (c ≠ '\'') && decide (c ≠ '\\'))

/-- Literal, case-sensitive substring: `v` occurs in `s`. -/
def isSubstring (v s : String) : Bool :=
  decide (v.toList <:+: s.toList)

/-! ## Concrete inputs -/

/-- A row of the list query with the given id, audit level and status. -/
def detailOf (id : Nat) (auditLevel status : String) : SqlManageDetail :=
  { ID := id, SqlFingerprint := "SELECT * FROM t WHERE id = ?", SqlText := "SELECT * FROM t WHERE id = 1"
    Source := SQLManageSourceAuditPlan, AuditLevel := auditLevel, AuditResults := "[]"
    FpCount := 1, AppearTimestamp := some 100, LastReceiveTimestamp := some 100
    InstanceName := "db1", SchemaName := "app", Status := status, Remark := ""
    Assignees := [], ApName := none, SqlAuditRecordID := none }

/-- Four rows: one bad, one solved with an audit level, one solved without,
one unhandled without an audit level. -/
def sampleDetails : List SqlManageDetail :=
  [detailOf 4 "error" "unhandled", detailOf 3 "warn" "solved", detailOf 2 "" "solved",
   detailOf 1 "" "ignored"]

/-! ## Vocabulary of the properties of the upsert -/

/-- The effect of one tuple on one stored row: the update when the row
holds the tuple's key, nothing otherwise. -/
def mergeInto (r : SqlManageRow) (v : SqlManage) : SqlManageRow :=
  if r.proj_fp_source_inst_schema_md5 = v.ProjFpSourceInstSchemaMd5 then
    onDuplicateKeyUpdate r v
  else r

/-- The rows of `post` at the positions of the rows of `s`: the rows that
were in the table before the call. -/
def existingRows (s post : Storage) : List SqlManageRow :=
  post.sql_manages.take s.sql_manages.length

/-- The row `r` holds, in the eight columns of `ON DUPLICATE KEY UPDATE`,
the values of the tuple `v`. -/
def carries (r : SqlManageRow) (v : SqlManage) : Prop :=
  r.sql_text = v.SqlText ∧ r.audit_plan_id = v.AuditPlanId ∧
  r.sql_audit_record_id = v.SqlAuditRecordId ∧ r.audit_level = v.AuditLevel ∧
  r.audit_results = v.AuditResults ∧ r.fp_count = v.FpCount ∧
  r.first_appear_timestamp = v.FirstAppearTimestamp ∧
  r.last_receive_timestamp = v.LastReceiveTimestamp

/-- A stored row with the given id, key, status and timestamps. -/
def storedRow (id : Nat) (key status : String) (firstSeen lastSeen : Int) (count : Nat) :
    SqlManageRow :=
  { id := id, deleted_at := none, sql_fingerprint := "SELECT * FROM t WHERE id = ?"
    proj_fp_source_inst_schema_md5 := key, sql_text := "SELECT * FROM t WHERE id = 1"
    source := SQLManageSourceAuditPlan, audit_level := "warn", audit_results := "[]"
    fp_count := count, first_appear_timestamp := some firstSeen
    last_receive_timestamp := some lastSeen, instance_name := "db1", schema_name := "app"
    status := status, remark := "checked by alice", audit_plan_id := 1, project_id := 1
    sql_audit_record_id := 0 }

/-- A table with two items, the first solved and assigned to the users 7
and 8. -/
def sampleStorage : Storage :=
  { sql_manages := [storedRow 1 "k1" "solved" 100 150 3, storedRow 2 "k2" "unhandled" 120 120 1]
    sql_manage_assignees := [(1, 7), (1, 8)]
    nextId := 3 }

/-- The empty database. -/
def emptyStorage : Storage :=
  { sql_manages := [], sql_manage_assignees := [], nextId := 1 }

/-- The value of a predicate whose fingerprint literal is read as the
pattern `%`, text, `%`. -/
def clauseValue (b : Binder) (data : Data) (r : JoinedRow) : Clause → Bool
  | .projectName => eqParam b r.p_name (data "project_name")
  | .deletedAtIsNull => r.sm.deleted_at.isNone
  | .fingerprintLike text =>
    likeMatch (('%' :: text.toList) ++ ['%']) r.sm.sql_fingerprint.toList
  | .assignee => eqParam b r.u_login_name (data "filter_assignee")
  | .instanceName => eqParam b (some r.sm.instance_name) (data "filter_instance_name")
  | .source => eqParam b (some r.sm.source) (data "filter_source")
  | .auditLevel => eqParam b (some r.sm.audit_level) (data "filter_audit_level")
  | .lastAuditStartTimeFrom =>
    geParam b r.sm.last_receive_timestamp (data "filter_last_audit_start_time_from")
  | .lastAuditStartTimeTo =>
    leParam b r.sm.last_receive_timestamp (data "filter_last_audit_start_time_to")
  | .status => eqParam b (some r.sm.status) (data "filter_status")

/-- A filter map with the project name and an audit-level filter whose
value is the empty string. -/
def emptyLevelData : Data := fun k =>
  if k = "project_name" then some (.str "p1")
  else if k = "filter_audit_level" then some (.str "")
  else none

/-- A row of the project "p1" with audit level "warn". -/
def warnRow : JoinedRow :=
  { sm := storedRow 1 "k1" "unhandled" 100 150 3
    p_name := some "p1", u_login_name := none, ap_name := none, sar_audit_record_id := none }

/-- A filter map with the project name, an instance filter and a status
filter. -/
def twoFilterData : Data := fun k =>
  if k = "project_name" then some (.str "p1")
  else if k = "filter_instance_name" then some (.str "db1")
  else if k = "filter_status" then some (.str "unhandled")
  else none

/-! # Properties -/

/-! ## Summary counters -/

theorem countStep_eq (acc : Nat × Nat) (d : SqlManageDetail)
    (h1 : acc.1 + 1 < uint64Size) (h2 : acc.2 + 1 < uint64Size) :
    countStep acc d =
      (acc.1 + (if isBad d then 1 else 0), acc.2 + (if isSolved d then 1 else 0)) := by
  refine Prod.ext ?_ ?_
  · show (if d.AuditLevel ≠ "" ∧ d.Status ≠ SQLManageStatusSolved then
        (acc.1 + 1) % uint64Size else acc.1) = _
    by_cases hb : d.AuditLevel ≠ "" ∧ d.Status ≠ SQLManageStatusSolved
    · have hd : isBad d = true := decide_eq_true hb
      rw [if_pos hb, hd, Nat.mod_eq_of_lt h1]; rfl
    · have hd : isBad d = false := decide_eq_false hb
      rw [if_neg hb, hd]; rfl
  · show (if d.Status = SQLManageStatusSolved then (acc.2 + 1) % uint64Size else acc.2) = _
    by_cases hs : d.Status = SQLManageStatusSolved
    · have hd : isSolved d = true := decide_eq_true hs
      rw [if_pos hs, hd, Nat.mod_eq_of_lt h2]; rfl
    · have hd : isSolved d = false := decide_eq_false hs
      rw [if_neg hs, hd]; rfl

theorem foldl_countStep (rows : List SqlManageDetail) :
    ∀ acc : Nat × Nat, acc.1 + rows.length < uint64Size → acc.2 + rows.length < uint64Size →
      rows.foldl countStep acc = (acc.1 + rows.countP isBad, acc.2 + rows.countP isSolved) := by
  induction rows with
  | nil => intro acc _ _; simp
  | cons d ds ih =>
    intro acc h1 h2
    simp only [List.length_cons] at h1 h2
    have e := countStep_eq acc d (by omega) (by omega)
    rw [List.foldl_cons, e, ih _ (by by_cases hb : isBad d = true <;> simp [hb] <;> omega)
      (by by_cases hs : isSolved d = true <;> simp [hs] <;> omega)]
    simp only [List.countP_cons]
    ext <;> simp <;> omega

theorem bad_solved_disjoint (d : SqlManageDetail) : ¬ (isBad d = true ∧ isSolved d = true) := by
  unfold isBad isSolved
  simp only [decide_eq_true_eq]
  rintro ⟨⟨_, h⟩, h2⟩
  exact h h2

theorem countP_bad_add_solved_le (rows : List SqlManageDetail) :
    rows.countP isBad + rows.countP isSolved ≤ rows.length := by
  induction rows with
  | nil => simp
  | cons d ds ih =>
    have hd := bad_solved_disjoint d
    simp only [List.countP_cons, List.length_cons]
    by_cases hb : isBad d = true <;> by_cases hs : isSolved d = true <;>
      simp [hb, hs] at hd ⊢ <;> omega

theorem maxInt_lt_uint64Size : maxInt < uint64Size := by
  unfold maxInt uint64Size; norm_num

/-- C1. When the query succeeds with the rows `rows` (a Go slice, so of
length at most `maxInt`), `GetSqlManageListByReq` succeeds and returns the
rows unchanged, their number as `SqlManageTotalNum`, the number of rows with
a non-empty `AuditLevel` and a `Status` other than "solved" as
`SqlManageBadNum`, and the number of rows with `Status` "solved" as
`SqlManageOptimizedNum`. -/
theorem GetSqlManageListByReq_counts (rows : List SqlManageDetail)
    (hlen : rows.length ≤ maxInt) :
    GetSqlManageListByReq (.ok rows) =
      .ok { SqlManageList := rows
            SqlManageTotalNum := rows.length
            SqlManageBadNum :=
              rows.countP (fun d => decide (d.AuditLevel ≠ "" ∧ d.Status ≠ "solved"))
            SqlManageOptimizedNum := rows.countP (fun d => decide (d.Status = "solved")) } := by
  have hlt : rows.length < uint64Size := lt_of_le_of_lt hlen maxInt_lt_uint64Size
  have hf := foldl_countStep rows (0, 0) (by simpa using hlt) (by simpa using hlt)
  simp only [Nat.zero_add] at hf
  simp only [GetSqlManageListByReq, hf, Nat.mod_eq_of_lt hlt]
  rfl

/-- C2. For the rows of any query (whatever the filters), the response of
`GetSqlManageListByReq` has `SqlManageBadNum + SqlManageOptimizedNum` at
most `SqlManageTotalNum`, and `SqlManageTotalNum` is the number of rows of
`SqlManageList`. -/
theorem GetSqlManageListByReq_summary_consistent (rows : List SqlManageDetail)
    (hlen : rows.length ≤ maxInt) :
    ∃ resp, GetSqlManageListByReq (.ok rows) = .ok resp ∧
      resp.SqlManageBadNum + resp.SqlManageOptimizedNum ≤ resp.SqlManageTotalNum ∧
      resp.SqlManageTotalNum = resp.SqlManageList.length := by
  have hlt : rows.length < uint64Size := lt_of_le_of_lt hlen maxInt_lt_uint64Size
  have hf := foldl_countStep rows (0, 0) (by simpa using hlt) (by simpa using hlt)
  simp only [Nat.zero_add] at hf
  refine ⟨_, rfl, ?_, ?_⟩
  · simp only [hf, Nat.mod_eq_of_lt hlt]
    exact countP_bad_add_solved_le rows
  · simp only [Nat.mod_eq_of_lt hlt]

theorem GetSqlManageListByReq_counts_witness :
    sampleDetails.length ≤ maxInt ∧
    GetSqlManageListByReq (.ok sampleDetails) =
      .ok { SqlManageList := sampleDetails, SqlManageTotalNum := 4, SqlManageBadNum := 1
            SqlManageOptimizedNum := 2 } :=
  ⟨by decide, (GetSqlManageListByReq_counts sampleDetails (by decide)).trans
    (congrArg Except.ok (by decide))⟩

theorem GetSqlManageListByReq_summary_consistent_witness :
    sampleDetails.length ≤ maxInt ∧
    ∃ resp, GetSqlManageListByReq (.ok sampleDetails) = .ok resp ∧
      resp.SqlManageBadNum + resp.SqlManageOptimizedNum ≤ resp.SqlManageTotalNum ∧
      resp.SqlManageTotalNum = resp.SqlManageList.length :=
  ⟨by decide, GetSqlManageListByReq_summary_consistent sampleDetails (by decide)⟩

/-! ## Lookup by dedup key -/

/-- C10, as stated, fails: when the database fails with an error other than
"record not found", the lookup returns the storage error and reports the
item as found. -/
theorem lookup_storage_error_reports_found :
    (GetSqlManageByFingerprintSourceInstNameSchemaMd5
        { sqlManage := SqlManage.zero, Error := some (.other "invalid connection") }).2.2 ≠ none ∧
    (GetSqlManageByFingerprintSourceInstNameSchemaMd5
        { sqlManage := SqlManage.zero, Error := some (.other "invalid connection") }).2.1 = true := by
  decide

/-- C10, amended. The lookup returns found=false exactly when the database
reports "record not found", and the error is then nil; when a row is found
(nil error of the database) it returns that row with found=true and a nil
error; when the database fails with any other error `e` it returns `e`
wrapped as `ConnectStorageError`, a non-nil error, with found=true. -/
theorem lookup_by_key_outcomes (found : FindResult) :
    (GetSqlManageByFingerprintSourceInstNameSchemaMd5 found).1 = found.sqlManage ∧
    ((GetSqlManageByFingerprintSourceInstNameSchemaMd5 found).2.1 = false ↔
      errorsIs found.Error = true) ∧
    (errorsIs found.Error = true →
      (GetSqlManageByFingerprintSourceInstNameSchemaMd5 found).2.2 = none) ∧
    (found.Error = none →
      (GetSqlManageByFingerprintSourceInstNameSchemaMd5 found).2 = (true, none)) ∧
    (∀ e, found.Error = some e → isRecordNotFound e = false →
      (GetSqlManageByFingerprintSourceInstNameSchemaMd5 found).2 =
        (true, some { code := .ConnectStorageError, err := e })) := by
  obtain ⟨row, err⟩ := found
  cases err with
  | none => simp [GetSqlManageByFingerprintSourceInstNameSchemaMd5, errorsIs, errorsNew]
  | some e =>
    cases h : isRecordNotFound e <;>
      simp [GetSqlManageByFingerprintSourceInstNameSchemaMd5, errorsIs, errorsNew, h]

/-! ## The upsert: one tuple -/

theorem mergeInto_key (r : SqlManageRow) (v : SqlManage) :
    (mergeInto r v).proj_fp_source_inst_schema_md5 = r.proj_fp_source_inst_schema_md5 := by
  unfold mergeInto; split <;> rfl

theorem upsertTuple_rows (s : Storage) (v : SqlManage) :
    (upsertTuple s v).sql_manages =
      s.sql_manages.map (fun r => mergeInto r v) ++
        (if v.ProjFpSourceInstSchemaMd5 ∈ s.keys then [] else [insertedRow s.nextId v]) := by
  unfold upsertTuple
  by_cases h : s.sql_manages.any
      (fun r => decide (r.proj_fp_source_inst_schema_md5 = v.ProjFpSourceInstSchemaMd5)) = true
  · have hmem : v.ProjFpSourceInstSchemaMd5 ∈ s.keys := by
      obtain ⟨r, hr, hk⟩ := List.any_eq_true.mp h
      exact List.mem_map.mpr ⟨r, hr, of_decide_eq_true hk⟩
    rw [if_pos h, if_pos hmem, List.append_nil]
    rfl
  · have hmem : v.ProjFpSourceInstSchemaMd5 ∉ s.keys := by
      intro hm
      obtain ⟨r, hr, hk⟩ := List.mem_map.mp hm
      exact h (List.any_eq_true.mpr ⟨r, hr, decide_eq_true hk⟩)
    rw [if_neg h, if_neg hmem]
    have hid : s.sql_manages.map (fun r => mergeInto r v) = s.sql_manages := by
      conv_rhs => rw [← List.map_id s.sql_manages]
      apply List.map_congr_left
      intro r hr
      have : r.proj_fp_source_inst_schema_md5 ≠ v.ProjFpSourceInstSchemaMd5 :=
        fun hk => hmem (List.mem_map.mpr ⟨r, hr, hk⟩)
      simp [mergeInto, this]
    show s.sql_manages ++ _ = _
    rw [hid]

theorem upsertTuple_assignees (s : Storage) (v : SqlManage) :
    (upsertTuple s v).sql_manage_assignees = s.sql_manage_assignees := by
  unfold upsertTuple; split <;> rfl

theorem upsertTuple_keys (s : Storage) (v : SqlManage) :
    (upsertTuple s v).keys =
      s.keys ++ (if v.ProjFpSourceInstSchemaMd5 ∈ s.keys then []
        else [v.ProjFpSourceInstSchemaMd5]) := by
  unfold Storage.keys
  rw [upsertTuple_rows, List.map_append, List.map_map]
  congr 1
  · apply List.map_congr_left
    intro r _
    exact mergeInto_key r v
  · show _ = if v.ProjFpSourceInstSchemaMd5 ∈ s.keys then _ else _
    split <;> rfl

theorem upsertAll_cons (s : Storage) (v : SqlManage) (vs : List SqlManage) :
    upsertAll s (v :: vs) = upsertAll (upsertTuple s v) vs := rfl

theorem upsertAll_append (s : Storage) (vs ws : List SqlManage) :
    upsertAll s (vs ++ ws) = upsertAll (upsertAll s vs) ws := by
  unfold upsertAll; rw [List.foldl_append]

theorem upsertAll_assignees (vs : List SqlManage) :
    ∀ s : Storage, (upsertAll s vs).sql_manage_assignees = s.sql_manage_assignees := by
  induction vs with
  | nil => intro s; rfl
  | cons v vs ih => intro s; rw [upsertAll_cons, ih, upsertTuple_assignees]

/-! ## The upsert: a batch -/

theorem upsertAll_rows (vs : List SqlManage) :
    ∀ s : Storage, ∃ extra, (upsertAll s vs).sql_manages =
      s.sql_manages.map (fun r => vs.foldl mergeInto r) ++ extra := by
  induction vs with
  | nil => intro s; exact ⟨[], by simp [upsertAll]⟩
  | cons v vs ih =>
    intro s
    obtain ⟨extra, he⟩ := ih (upsertTuple s v)
    rw [upsertAll_cons, he, upsertTuple_rows, List.map_append, List.map_map, List.append_assoc]
    exact ⟨_, rfl⟩

theorem existingRows_upsertAll (s : Storage) (vs : List SqlManage) :
    existingRows s (upsertAll s vs) = s.sql_manages.map (fun r => vs.foldl mergeInto r) := by
  obtain ⟨extra, he⟩ := upsertAll_rows vs s
  unfold existingRows
  rw [he]
  have hl : s.sql_manages.length = (s.sql_manages.map (fun r => vs.foldl mergeInto r)).length := by
    simp
  rw [hl, List.take_left]

theorem foldl_mergeInto_preserves {α : Type} (π : SqlManageRow → α)
    (hπ : ∀ r v, π (onDuplicateKeyUpdate r v) = π r) (vs : List SqlManage) :
    ∀ r : SqlManageRow, π (vs.foldl mergeInto r) = π r := by
  induction vs with
  | nil => intro r; rfl
  | cons v vs ih =>
    intro r
    rw [List.foldl_cons, ih]
    unfold mergeInto
    split
    · exact hπ r v
    · rfl

theorem lastWithKey_append_singleton (key : String) (vs : List SqlManage) (v : SqlManage) :
    lastWithKey key (vs ++ [v]) =
      if v.ProjFpSourceInstSchemaMd5 = key then some v else lastWithKey key vs := by
  unfold lastWithKey
  rw [List.filter_append]
  by_cases h : v.ProjFpSourceInstSchemaMd5 = key
  · simp [h]
  · simp [h]

theorem onDuplicateKeyUpdate_twice (r : SqlManageRow) (v w : SqlManage) :
    onDuplicateKeyUpdate (onDuplicateKeyUpdate r v) w = onDuplicateKeyUpdate r w := rfl

/-- The effect of a batch on a stored row: the update by the last tuple of
the batch that carries the row's key, nothing when no tuple does. -/
theorem foldl_mergeInto_eq (vs : List SqlManage) (r : SqlManageRow) :
    vs.foldl mergeInto r =
      match lastWithKey r.proj_fp_source_inst_schema_md5 vs with
      | some v => onDuplicateKeyUpdate r v
      | none => r := by
  induction vs using List.reverseRecOn with
  | nil => rfl
  | append_singleton vs v ih =>
    rw [List.foldl_append, List.foldl_cons, List.foldl_nil, lastWithKey_append_singleton, ih]
    by_cases h : v.ProjFpSourceInstSchemaMd5 = r.proj_fp_source_inst_schema_md5
    · rw [if_pos h]
      cases hl : lastWithKey r.proj_fp_source_inst_schema_md5 vs with
      | none => simp [mergeInto, h]
      | some w =>
        have hk : (onDuplicateKeyUpdate r w).proj_fp_source_inst_schema_md5 =
            v.ProjFpSourceInstSchemaMd5 := h.symm
        simp only [mergeInto, hk, if_true]
        rfl
    · rw [if_neg h]
      cases hl : lastWithKey r.proj_fp_source_inst_schema_md5 vs with
      | none =>
        have hk : ¬ r.proj_fp_source_inst_schema_md5 = v.ProjFpSourceInstSchemaMd5 :=
          fun e => h e.symm
        simp [mergeInto, hk]
      | some w =>
        have hk : ¬ (onDuplicateKeyUpdate r w).proj_fp_source_inst_schema_md5 =
            v.ProjFpSourceInstSchemaMd5 := fun e => h e.symm
        simp only [mergeInto, hk, if_false]

/-- The state after `InsertOrUpdateSqlManage`: the batch applied when the
call returns no error, the state before the call otherwise. -/
theorem InsertOrUpdateSqlManage_post (fault : Option GoError) (s : Storage)
    (batch : List SqlManage) :
    (InsertOrUpdateSqlManage fault s batch).1 =
      if (InsertOrUpdateSqlManage fault s batch).2 = none then upsertAll s batch else s := by
  cases fault with
  | some e => simp [InsertOrUpdateSqlManage, dbExec, errorsNew]
  | none =>
    cases batch with
    | nil => simp [InsertOrUpdateSqlManage, dbExec, errorsNew]
    | cons v vs => simp [InsertOrUpdateSqlManage, dbExec, errorsNew]

theorem InsertOrUpdateSqlManage_ok (s : Storage) (v : SqlManage) (vs : List SqlManage) :
    InsertOrUpdateSqlManage none s (v :: vs) = (upsertAll s (v :: vs), none) := rfl

theorem InsertOrUpdateSqlManage_no_fault (s : Storage) (batch : List SqlManage) :
    (InsertOrUpdateSqlManage none s batch).1 = upsertAll s batch := by
  cases batch <;> rfl

theorem existingRows_self (s : Storage) : existingRows s s = s.sql_manages := by
  unfold existingRows; simp

/-! ## Human-owned columns -/

/-- C3. Whatever the batch carries and whether or not the call fails, every
row that was in the table keeps its id, its dedup key, its status and its
remark, and the assignees table is untouched, so every item keeps its
assignees: a solved item is still solved after a merge. -/
theorem merge_keeps_human_fields (fault : Option GoError) (s : Storage)
    (batch : List SqlManage) :
    (existingRows s (InsertOrUpdateSqlManage fault s batch).1).map
        (fun r => (r.id, r.proj_fp_source_inst_schema_md5, r.status, r.remark)) =
      s.sql_manages.map (fun r => (r.id, r.proj_fp_source_inst_schema_md5, r.status, r.remark)) ∧
    (InsertOrUpdateSqlManage fault s batch).1.sql_manage_assignees = s.sql_manage_assignees ∧
    ∀ id, (InsertOrUpdateSqlManage fault s batch).1.assigneesOf id = s.assigneesOf id := by
  rw [InsertOrUpdateSqlManage_post]
  split
  · refine ⟨?_, upsertAll_assignees batch s, ?_⟩
    · rw [existingRows_upsertAll, List.map_map]
      apply List.map_congr_left
      intro r _
      exact foldl_mergeInto_preserves
        (fun r => (r.id, r.proj_fp_source_inst_schema_md5, r.status, r.remark))
        (fun _ _ => rfl) batch r
    · intro id
      unfold Storage.assigneesOf
      rw [upsertAll_assignees]
  · exact ⟨by rw [existingRows_self], rfl, fun _ => rfl⟩

/-! ## First appearance -/

/-- C4, as stated, fails: the item "k1" first appeared at 100; after a
merge of an occurrence of "k1" carrying 200, its first appearance is 200. -/
theorem first_appear_moved_by_merge :
    sampleStorage.sql_manages.map (fun r => r.first_appear_timestamp) = [some 100, some 120] ∧
    (existingRows sampleStorage
        (InsertOrUpdateSqlManage none sampleStorage [finding "k1" 200]).1).map
      (fun r => r.first_appear_timestamp) = [some 200, some 120] := by
  decide

/-- C4, amended. After a call that returns no error, a row that was in the
table has as first appearance the `FirstAppearTimestamp` of the last tuple
of the batch that carries its key, and its former value when no tuple
does; a call that returns an error changes nothing. -/
theorem first_appear_after_merge (fault : Option GoError) (s : Storage)
    (batch : List SqlManage) :
    ((InsertOrUpdateSqlManage fault s batch).2 = none →
      (existingRows s (InsertOrUpdateSqlManage fault s batch).1).map
          (fun r => r.first_appear_timestamp) =
        s.sql_manages.map (fun r =>
          match lastWithKey r.proj_fp_source_inst_schema_md5 batch with
          | some v => v.FirstAppearTimestamp
          | none => r.first_appear_timestamp)) ∧
    ((InsertOrUpdateSqlManage fault s batch).2 ≠ none →
      (InsertOrUpdateSqlManage fault s batch).1 = s) := by
  constructor
  · intro h
    rw [InsertOrUpdateSqlManage_post, if_pos h, existingRows_upsertAll, List.map_map]
    apply List.map_congr_left
    intro r _
    show (batch.foldl mergeInto r).first_appear_timestamp = _
    rw [foldl_mergeInto_eq]
    cases lastWithKey r.proj_fp_source_inst_schema_md5 batch <;> rfl
  · intro h
    rw [InsertOrUpdateSqlManage_post, if_neg h]

/-! ## Dedup uniqueness -/

theorem rowsWithKey_length (s : Storage) (key : String) :
    (s.rowsWithKey key).length = s.keys.count key := by
  unfold Storage.rowsWithKey Storage.keys
  induction s.sql_manages with
  | nil => rfl
  | cons r rs ih =>
    by_cases h : r.proj_fp_source_inst_schema_md5 = key
    · simp [List.filter_cons, h, ih]
    · have hb : (r.proj_fp_source_inst_schema_md5 == key) = false := by simpa using h
      simp [List.filter_cons, h, ih, List.count_cons, hb]

theorem upsertTuple_keys_nodup (s : Storage) (v : SqlManage) (h : s.keys.Nodup) :
    (upsertTuple s v).keys.Nodup := by
  rw [upsertTuple_keys]
  by_cases hm : v.ProjFpSourceInstSchemaMd5 ∈ s.keys
  · simpa [hm] using h
  · rw [if_neg hm]
    exact List.Nodup.append h (List.nodup_singleton _) (by simpa using hm)

theorem upsertAll_keys_nodup (vs : List SqlManage) :
    ∀ s : Storage, s.keys.Nodup → (upsertAll s vs).keys.Nodup := by
  induction vs with
  | nil => intro s h; exact h
  | cons v vs ih => intro s h; exact ih _ (upsertTuple_keys_nodup s v h)

theorem upsertTuple_keys_mem (s : Storage) (v : SqlManage) (key : String) :
    key ∈ (upsertTuple s v).keys ↔ key ∈ s.keys ∨ key = v.ProjFpSourceInstSchemaMd5 := by
  rw [upsertTuple_keys]
  by_cases hm : v.ProjFpSourceInstSchemaMd5 ∈ s.keys
  · simp only [hm, if_true, List.append_nil]
    constructor
    · exact Or.inl
    · rintro (h | h)
      · exact h
      · exact h ▸ hm
  · simp [hm]

theorem upsertAll_keys_mem (vs : List SqlManage) (key : String) :
    ∀ s : Storage, key ∈ (upsertAll s vs).keys ↔
      key ∈ s.keys ∨ key ∈ vs.map (fun v => v.ProjFpSourceInstSchemaMd5) := by
  induction vs with
  | nil => intro s; simp [upsertAll]
  | cons v vs ih =>
    intro s
    rw [upsertAll_cons, ih, upsertTuple_keys_mem]
    simp only [List.map_cons, List.mem_cons]
    tauto

theorem upsertTuple_keys_count (s : Storage) (v : SqlManage) (key : String) :
    (upsertTuple s v).keys.count key =
      if key ∈ s.keys then s.keys.count key
      else if key = v.ProjFpSourceInstSchemaMd5 then 1 else 0 := by
  rw [upsertTuple_keys, List.count_append]
  by_cases hk : key ∈ s.keys
  · rw [if_pos hk]
    by_cases hm : v.ProjFpSourceInstSchemaMd5 ∈ s.keys
    · simp [hm]
    · have hne : v.ProjFpSourceInstSchemaMd5 ≠ key := fun e => hm (e ▸ hk)
      have hb : (v.ProjFpSourceInstSchemaMd5 == key) = false := by simpa using hne
      simp [hm, List.count_cons, hb]
  · rw [if_neg hk, List.count_eq_zero_of_not_mem hk]
    by_cases he : key = v.ProjFpSourceInstSchemaMd5
    · have hm : v.ProjFpSourceInstSchemaMd5 ∉ s.keys := he ▸ hk
      simp [hm, he]
    · by_cases hm : v.ProjFpSourceInstSchemaMd5 ∈ s.keys
      · simp [hm, he]
      · have hne : ¬ v.ProjFpSourceInstSchemaMd5 = key := fun e => he e.symm
        simp [hm, he, hne]

/-- The number of rows holding a key after a batch: unchanged for a key
the table held, one for a new key of the batch, zero otherwise. -/
theorem upsertAll_keys_count (vs : List SqlManage) (key : String) :
    ∀ s : Storage, (upsertAll s vs).keys.count key =
      if key ∈ s.keys then s.keys.count key
      else if key ∈ vs.map (fun v => v.ProjFpSourceInstSchemaMd5) then 1 else 0 := by
  induction vs with
  | nil =>
    intro s
    by_cases hk : key ∈ s.keys
    · simp [upsertAll, hk]
    · simp [upsertAll, hk, List.count_eq_zero_of_not_mem hk]
  | cons v vs ih =>
    intro s
    rw [upsertAll_cons, ih, upsertTuple_keys_count]
    simp only [upsertTuple_keys_mem, List.map_cons, List.mem_cons]
    by_cases hk : key ∈ s.keys
    · simp [hk]
    · by_cases he : key = v.ProjFpSourceInstSchemaMd5
      · simp [hk, he]
      · simp [hk, he]

/-- C7. If no two rows share a dedup key before the call, no two rows share
one after it, whatever the batch (repeated keys, keys already stored) and
whether or not the call fails; and after a call that returns no error every
key of the batch is held by exactly one row. -/
theorem dedup_key_unique (fault : Option GoError) (s : Storage) (batch : List SqlManage)
    (h : s.keys.Nodup) :
    (InsertOrUpdateSqlManage fault s batch).1.keys.Nodup ∧
    ((InsertOrUpdateSqlManage fault s batch).2 = none →
      ∀ v ∈ batch,
        ((InsertOrUpdateSqlManage fault s batch).1.rowsWithKey
          v.ProjFpSourceInstSchemaMd5).length = 1) := by
  constructor
  · rw [InsertOrUpdateSqlManage_post]
    split
    · exact upsertAll_keys_nodup batch s h
    · exact h
  · intro hok v hv
    rw [InsertOrUpdateSqlManage_post, if_pos hok, rowsWithKey_length]
    have hmem : v.ProjFpSourceInstSchemaMd5 ∈ (upsertAll s batch).keys :=
      (upsertAll_keys_mem batch _ s).mpr (Or.inr (List.mem_map.mpr ⟨v, hv, rfl⟩))
    exact List.count_eq_one_of_mem (upsertAll_keys_nodup batch s h) hmem

theorem dedup_key_unique_witness :
    sampleStorage.keys.Nodup ∧
    (InsertOrUpdateSqlManage none sampleStorage
      [finding "k1" 200, finding "k3" 210, finding "k3" 220]).1.keys.Nodup ∧
    ((InsertOrUpdateSqlManage none sampleStorage
      [finding "k1" 200, finding "k3" 210, finding "k3" 220]).2 = none →
      ∀ v ∈ [finding "k1" 200, finding "k3" 210, finding "k3" 220],
        ((InsertOrUpdateSqlManage none sampleStorage
          [finding "k1" 200, finding "k3" 210, finding "k3" 220]).1.rowsWithKey
          v.ProjFpSourceInstSchemaMd5).length = 1) :=
  ⟨by decide, dedup_key_unique none sampleStorage
    [finding "k1" 200, finding "k3" 210, finding "k3" 220] (by decide)⟩

/-! ## Producer-owned columns after a merge -/

theorem carries_onDuplicateKeyUpdate (r : SqlManageRow) (v : SqlManage) :
    carries (onDuplicateKeyUpdate r v) v :=
  ⟨rfl, rfl, rfl, rfl, rfl, rfl, rfl, rfl⟩

theorem carries_insertedRow (id : Nat) (v : SqlManage) : carries (insertedRow id v) v :=
  ⟨rfl, rfl, rfl, rfl, rfl, rfl, rfl, rfl⟩

/-- After a batch, every row holding a key of the batch carries the values
of the last tuple of the batch with that key. -/
theorem rowsWithKey_carry_last (s : Storage) (vs : List SqlManage) :
    ∀ (key : String) (v : SqlManage), lastWithKey key vs = some v →
      ∀ r ∈ (upsertAll s vs).rowsWithKey key, carries r v := by
  induction vs using List.reverseRecOn with
  | nil => intro key v h; simp [lastWithKey] at h
  | append_singleton vs w ih =>
    intro key v h r hr
    rw [upsertAll_append] at hr
    have hone : upsertAll (upsertAll s vs) [w] = upsertTuple (upsertAll s vs) w := rfl
    rw [hone] at hr
    unfold Storage.rowsWithKey at hr
    rw [List.mem_filter, upsertTuple_rows, List.mem_append] at hr
    obtain ⟨hmem, hkey⟩ := hr
    have hkey2 : r.proj_fp_source_inst_schema_md5 = key := of_decide_eq_true hkey
    rw [lastWithKey_append_singleton] at h
    by_cases hw : w.ProjFpSourceInstSchemaMd5 = key
    · rw [if_pos hw] at h
      have hv : w = v := Option.some.inj h
      subst hv
      rcases hmem with hm | hm
      · obtain ⟨r0, _, rfl⟩ := List.mem_map.mp hm
        have h0 : r0.proj_fp_source_inst_schema_md5 = w.ProjFpSourceInstSchemaMd5 := by
          rw [← mergeInto_key r0 w, hkey2, hw]
        have hm2 : mergeInto r0 w = onDuplicateKeyUpdate r0 w := by
          unfold mergeInto; rw [if_pos h0]
        rw [hm2]
        exact carries_onDuplicateKeyUpdate r0 w
      · split at hm
        · simp at hm
        · rw [List.mem_singleton] at hm
          rw [hm]
          exact carries_insertedRow _ w
    · rw [if_neg hw] at h
      rcases hmem with hm | hm
      · obtain ⟨r0, hr0, rfl⟩ := List.mem_map.mp hm
        have h0 : r0.proj_fp_source_inst_schema_md5 = key := by
          rw [← mergeInto_key r0 w, hkey2]
        have hne : ¬ r0.proj_fp_source_inst_schema_md5 = w.ProjFpSourceInstSchemaMd5 := by
          rw [h0]; exact fun e => hw e.symm
        have hm2 : mergeInto r0 w = r0 := by
          unfold mergeInto; rw [if_neg hne]
        rw [hm2]
        apply ih key v h
        unfold Storage.rowsWithKey
        exact List.mem_filter.mpr ⟨hr0, decide_eq_true h0⟩
      · split at hm
        · simp at hm
        · rw [List.mem_singleton] at hm
          rw [hm] at hkey2
          exact absurd hkey2 hw

theorem submitBatches_eq (batches : List (List SqlManage)) :
    ∀ s : Storage, submitBatches s batches = upsertAll s batches.flatten := by
  induction batches with
  | nil => intro s; rfl
  | cons b bs ih =>
    intro s
    show submitBatches (InsertOrUpdateSqlManage none s b).1 bs = _
    rw [ih, InsertOrUpdateSqlManage_no_fault, List.flatten_cons, upsertAll_append]

theorem map_eq_singleton_of_length_one {α β : Type} (f : α → β) (l : List α) (x : β)
    (hlen : l.length = 1) (hall : ∀ a ∈ l, f a = x) : l.map f = [x] := by
  obtain ⟨a, rfl⟩ := List.length_eq_one.mp hlen
  simp [hall a (List.mem_singleton.mpr rfl)]

theorem lastWithKey_of_all_key (key : String) (vs : List SqlManage) (hne : vs ≠ [])
    (hall : ∀ v ∈ vs, v.ProjFpSourceInstSchemaMd5 = key) :
    lastWithKey key vs = some (vs.getLast hne) := by
  unfold lastWithKey
  have hf : vs.filter (fun v => decide (v.ProjFpSourceInstSchemaMd5 = key)) = vs :=
    List.filter_eq_self.mpr (fun v hv => decide_eq_true (hall v hv))
  rw [hf, List.getLast?_eq_getLast]

/-- After successive calls whose tuples all carry the key `key`, on a table
with at most one row for that key, exactly one row holds the key and it
carries the values of the tuple submitted last. -/
theorem rows_of_key_after_batches (s : Storage) (key : String)
    (batches : List (List SqlManage)) (hne : batches.flatten ≠ [])
    (hall : ∀ v ∈ batches.flatten, v.ProjFpSourceInstSchemaMd5 = key)
    (hcount : s.keys.count key ≤ 1) :
    ((submitBatches s batches).rowsWithKey key).length = 1 ∧
    ∀ r ∈ (submitBatches s batches).rowsWithKey key,
      carries r (batches.flatten.getLast hne) := by
  rw [submitBatches_eq]
  constructor
  · rw [rowsWithKey_length, upsertAll_keys_count]
    by_cases hk : key ∈ s.keys
    · rw [if_pos hk]
      have hpos : 0 < s.keys.count key := List.count_pos_iff.mpr hk
      omega
    · rw [if_neg hk]
      obtain ⟨v, hv⟩ := List.exists_mem_of_ne_nil _ hne
      have hm : key ∈ batches.flatten.map (fun v => v.ProjFpSourceInstSchemaMd5) :=
        List.mem_map.mpr ⟨v, hv, hall v hv⟩
      rw [if_pos hm]
  · exact rowsWithKey_carry_last s batches.flatten key _
      (lastWithKey_of_all_key key batches.flatten hne hall)

/-! ## Last reception -/

/-- C5, as stated, fails: merging an occurrence observed at 200 and then
one observed at 100 leaves the last reception at 100, not at 200. -/
theorem last_receive_moved_backward :
    (finding "k" 200).ProjFpSourceInstSchemaMd5 = (finding "k" 100).ProjFpSourceInstSchemaMd5 ∧
    ((submitBatches emptyStorage [[finding "k" 200]]).rowsWithKey "k").map
      (fun r => r.last_receive_timestamp) = [some 200] ∧
    ((submitBatches emptyStorage [[finding "k" 200], [finding "k" 100]]).rowsWithKey "k").map
      (fun r => r.last_receive_timestamp) = [some 100] ∧
    ((submitBatches emptyStorage [[finding "k" 200], [finding "k" 100]]).rowsWithKey "k").map
      (fun r => r.last_receive_timestamp) ≠ [some (max 100 200)] := by
  decide

/-- C5, amended. On a table without duplicate keys, after two tuples `a`
and `b` with the same key, received at `t1` and at `t2`, are merged, the
item's last reception is that of the tuple merged last: `t2` when `a` is
merged first, `t1` when `b` is merged first, in two calls or in one batch. -/
theorem last_receive_is_last_merged (s : Storage) (a b : SqlManage) (t1 t2 : Int)
    (hs : s.keys.Nodup) (hkey : b.ProjFpSourceInstSchemaMd5 = a.ProjFpSourceInstSchemaMd5)
    (ha : a.LastReceiveTimestamp = some t1) (hb : b.LastReceiveTimestamp = some t2) :
    ((submitBatches s [[a], [b]]).rowsWithKey a.ProjFpSourceInstSchemaMd5).map
        (fun r => r.last_receive_timestamp) = [some t2] ∧
    ((submitBatches s [[b], [a]]).rowsWithKey a.ProjFpSourceInstSchemaMd5).map
        (fun r => r.last_receive_timestamp) = [some t1] ∧
    ((submitBatches s [[a, b]]).rowsWithKey a.ProjFpSourceInstSchemaMd5).map
        (fun r => r.last_receive_timestamp) = [some t2] ∧
    ((submitBatches s [[b, a]]).rowsWithKey a.ProjFpSourceInstSchemaMd5).map
        (fun r => r.last_receive_timestamp) = [some t1] := by
  have hcount : s.keys.count a.ProjFpSourceInstSchemaMd5 ≤ 1 :=
    List.nodup_iff_count_le_one.mp hs _
  have key : ∀ (batches : List (List SqlManage)) (hne : batches.flatten ≠ []),
      (∀ v ∈ batches.flatten, v.ProjFpSourceInstSchemaMd5 = a.ProjFpSourceInstSchemaMd5) →
      ((submitBatches s batches).rowsWithKey a.ProjFpSourceInstSchemaMd5).map
        (fun r => r.last_receive_timestamp) =
        [(batches.flatten.getLast hne).LastReceiveTimestamp] := by
    intro batches hne hall
    obtain ⟨hlen, hc⟩ := rows_of_key_after_batches s _ batches hne hall hcount
    exact map_eq_singleton_of_length_one _ _ _ hlen (fun r hr => (hc r hr).2.2.2.2.2.2.2)
  have hab : ∀ v ∈ [a, b], v.ProjFpSourceInstSchemaMd5 = a.ProjFpSourceInstSchemaMd5 := by
    intro v hv
    simp only [List.mem_cons, List.mem_singleton, List.not_mem_nil, or_false] at hv
    rcases hv with rfl | rfl
    · rfl
    · exact hkey
  have hba : ∀ v ∈ [b, a], v.ProjFpSourceInstSchemaMd5 = a.ProjFpSourceInstSchemaMd5 := by
    intro v hv
    simp only [List.mem_cons, List.mem_singleton, List.not_mem_nil, or_false] at hv
    rcases hv with rfl | rfl
    · exact hkey
    · rfl
  refine ⟨?_, ?_, ?_, ?_⟩
  · rw [← hb]; exact key [[a], [b]] (by simp) hab
  · rw [← ha]; exact key [[b], [a]] (by simp) hba
  · rw [← hb]; exact key [[a, b]] (by simp) hab
  · rw [← ha]; exact key [[b, a]] (by simp) hba

theorem last_receive_is_last_merged_witness :
    sampleStorage.keys.Nodup ∧
    ((submitBatches sampleStorage [[finding "k1" 300], [finding "k1" 200]]).rowsWithKey "k1").map
        (fun r => r.last_receive_timestamp) = [some 200] ∧
    ((submitBatches sampleStorage [[finding "k1" 200], [finding "k1" 300]]).rowsWithKey "k1").map
        (fun r => r.last_receive_timestamp) = [some 300] :=
  ⟨by decide,
   (last_receive_is_last_merged sampleStorage (finding "k1" 300) (finding "k1" 200) 300 200
      (by decide) rfl rfl rfl).1,
   (last_receive_is_last_merged sampleStorage (finding "k1" 300) (finding "k1" 200) 300 200
      (by decide) rfl rfl rfl).2.1⟩

/-! ## Occurrence count -/

/-- C6, as stated, fails for N = 2: two findings of one occurrence each,
submitted one after the other for a new key, leave `fp_count` at 1; and a
merge into an item whose count is 3 leaves it at 1, so the count is
replaced and can decrease. -/
theorem fp_count_not_accumulated :
    emptyStorage.rowsWithKey "k" = [] ∧
    (finding "k" 100).FpCount = 1 ∧ (finding "k" 200).FpCount = 1 ∧
    ((submitBatches emptyStorage [[finding "k" 100], [finding "k" 200]]).rowsWithKey "k").map
      (fun r => r.fp_count) = [1] ∧
    ((submitBatches emptyStorage [[finding "k" 100], [finding "k" 200]]).rowsWithKey "k").map
      (fun r => r.fp_count) ≠ [2] ∧
    (sampleStorage.rowsWithKey "k1").map (fun r => r.fp_count) = [3] ∧
    ((InsertOrUpdateSqlManage none sampleStorage [finding "k1" 200]).1.rowsWithKey "k1").map
      (fun r => r.fp_count) = [1] := by
  decide

/-- C6, amended. Starting from a table with no row for `key`, after one or
more tuples for that key are submitted (in any grouping into calls), one
row holds the key and its `fp_count` is the `FpCount` of the tuple
submitted last: the merge replaces the stored count. When every tuple
stands for one occurrence the count is 1, whatever their number. -/
theorem fp_count_is_last_submitted (s : Storage) (key : String)
    (batches : List (List SqlManage)) (hne : batches.flatten ≠ [])
    (hall : ∀ v ∈ batches.flatten, v.ProjFpSourceInstSchemaMd5 = key)
    (hnew : s.rowsWithKey key = []) :
    ((submitBatches s batches).rowsWithKey key).map (fun r => r.fp_count) =
        [(batches.flatten.getLast hne).FpCount] ∧
    ((∀ v ∈ batches.flatten, v.FpCount = 1) →
      ((submitBatches s batches).rowsWithKey key).map (fun r => r.fp_count) = [1]) := by
  have hcount : s.keys.count key ≤ 1 := by
    rw [← rowsWithKey_length, hnew]; simp
  obtain ⟨hlen, hc⟩ := rows_of_key_after_batches s key batches hne hall hcount
  have h1 := map_eq_singleton_of_length_one (fun r : SqlManageRow => r.fp_count) _ _ hlen
    (fun r hr => (hc r hr).2.2.2.2.2.1)
  refine ⟨h1, fun hone => ?_⟩
  rw [h1, hone _ (List.getLast_mem hne)]

theorem fp_count_is_last_submitted_witness :
    sampleStorage.rowsWithKey "k3" = [] ∧
    ((submitBatches sampleStorage
        [[finding "k3" 100], [finding "k3" 200, finding "k3" 300]]).rowsWithKey "k3").map
      (fun r => r.fp_count) = [1] :=
  ⟨by decide,
   (fp_count_is_last_submitted sampleStorage "k3"
      [[finding "k3" 100], [finding "k3" 200, finding "k3" 300]] (by decide) (by decide)
      (by decide)).2 (by decide)⟩

/-! ## The fingerprint literal -/

theorem readLiteral_plain (cs : List Char)
    (h : ∀ c ∈ cs, c ≠ '\'' ∧ c ≠ '\\') :
    readLiteral (cs ++ ['\'']) = some (cs, []) := by
  induction cs with
  | nil => simp [readLiteral]
  | cons c cs ih =>
    have hc := h c (List.mem_cons_self c cs)
    have ih2 := ih (fun d hd => h d (List.mem_cons_of_mem c hd))
    rw [List.cons_append, readLiteral.eq_def]
    simp only [if_neg hc.1, if_neg hc.2, ih2]
    rfl

theorem fingerprintLike_plain (text sql_fingerprint : String)
    (h : ∀ c ∈ text.toList, c ≠ '\'' ∧ c ≠ '\\') :
    fingerprintLike text sql_fingerprint =
      some (likeMatch (('%' :: text.toList) ++ ['%']) sql_fingerprint.toList) := by
  have hp : ∀ c ∈ ('%' :: text.toList) ++ ['%'], c ≠ '\'' ∧ c ≠ '\\' := by
    intro c hc
    simp only [List.mem_append, List.mem_cons, List.mem_singleton, List.not_mem_nil,
      or_false] at hc
    rcases hc with (rfl | hc) | rfl
    · decide
    · exact h c hc
    · decide
  have hr := readLiteral_plain _ hp
  have he : ('%' :: text.toList) ++ ['%', '\''] = (('%' :: text.toList) ++ ['%']) ++ ['\''] := by
    simp
  unfold fingerprintLike
  rw [he, hr]

/-! ## The condition of the list query -/

theorem allHold_map_some (eval : Clause → Option Bool) (g : Clause → Bool) (l : List Clause)
    (h : ∀ c ∈ l, eval c = some (g c)) : allHold (l.map eval) = some (l.all g) := by
  induction l with
  | nil => rfl
  | cons c cs ih =>
    rw [List.map_cons, h c (List.mem_cons_self c cs), allHold,
      ih (fun d hd => h d (List.mem_cons_of_mem c hd))]
    rfl

theorem all_if_singleton (t : Bool) (c : Clause) (g : Clause → Bool) :
    (if t = true then [c] else []).all g = (!t || g c) := by
  cases t <;> simp

theorem mem_if_singleton (t : Bool) (c x : Clause) :
    x ∈ (if t = true then [c] else []) ↔ t = true ∧ x = c := by
  cases t <;> simp

theorem mem_sqlManageBodyTpl_fingerprint (data : Data) (text : String)
    (h : Clause.fingerprintLike text ∈ sqlManageBodyTpl data) :
    truth (data "fuzzy_search_sql_fingerprint") = true ∧
      text = printed (data "fuzzy_search_sql_fingerprint") := by
  unfold sqlManageBodyTpl at h
  simp only [List.mem_append, mem_if_singleton, List.mem_cons, List.mem_singleton,
    List.not_mem_nil, or_false, reduceCtorEq, and_false, false_or,
    Clause.fingerprintLike.injEq] at h
  exact h

theorem evalClause_eq_clauseValue (b : Binder) (data : Data) (r : JoinedRow)
    (hsafe : fingerprintStaysInLiteral data = true) :
    ∀ c ∈ sqlManageBodyTpl data, evalClause b data r c = some (clauseValue b data r c) := by
  intro c hc
  cases c with
  | fingerprintLike text =>
    obtain ⟨ht, rfl⟩ := mem_sqlManageBodyTpl_fingerprint data text hc
    unfold fingerprintStaysInLiteral at hsafe
    rw [ht] at hsafe
    simp only [Bool.not_true, Bool.false_or, List.all_eq_true, Bool.and_eq_true,
      decide_eq_true_eq] at hsafe
    exact fingerprintLike_plain _ _ hsafe
  | _ => rfl

theorem sqlManageBodyTpl_all (b : Binder) (data : Data) (r : JoinedRow) :
    (sqlManageBodyTpl data).all (clauseValue b data r) =
      conjunctionOfSupplied truth b data r := by
  unfold sqlManageBodyTpl conjunctionOfSupplied allFilters
  simp only [List.all_append, all_if_singleton, List.all_cons, List.all_nil, Bool.and_true,
    clauseValue, Filter.key, Filter.holds, Bool.and_assoc]

/-- The condition of the rendered clause, for a fingerprint value that stays
inside its literal. -/
theorem bodyCondition_eq (b : Binder) (data : Data) (r : JoinedRow)
    (hsafe : fingerprintStaysInLiteral data = true) :
    bodyCondition b data r = some (conjunctionOfSupplied truth b data r) := by
  unfold bodyCondition
  rw [allHold_map_some _ _ _ (evalClause_eq_clauseValue b data r hsafe), sqlManageBodyTpl_all]

theorem Filter.key_ne_project_name (f : Filter) : ¬ "project_name" = f.key := by
  cases f <;> decide

theorem Filter.key_injective (f g : Filter) (h : g.key = f.key) : g = f := by
  cases f <;> cases g <;> first | rfl | exact absurd h (by decide)

theorem Filter.holds_congr (b : Binder) (data data2 : Data) (r : JoinedRow) (g : Filter)
    (h : data2 g.key = data g.key) : g.holds b data2 r = g.holds b data r := by
  cases g <;> simp only [Filter.key] at h <;> simp only [Filter.holds, h]

theorem remove_other (data : Data) (f g : Filter) (h : g ≠ f) :
    data.remove f.key g.key = data g.key := by
  unfold Data.remove
  rw [if_neg (fun e => h (Filter.key_injective f g e))]

theorem fingerprintStaysInLiteral_remove (data : Data) (f : Filter)
    (hsafe : fingerprintStaysInLiteral data = true) :
    fingerprintStaysInLiteral (data.remove f.key) = true := by
  by_cases hf : Filter.fingerprint = f
  · subst hf
    simp [fingerprintStaysInLiteral, Data.remove, Filter.key, truth]
  · have h : data.remove f.key "fuzzy_search_sql_fingerprint" =
        data "fuzzy_search_sql_fingerprint" := remove_other data f Filter.fingerprint hf
    unfold fingerprintStaysInLiteral
    rw [h]
    exact hsafe

theorem conjunctionOfSupplied_remove (b : Binder) (data : Data) (r : JoinedRow) (f : Filter)
    (h : conjunctionOfSupplied truth b data r = true) :
    conjunctionOfSupplied truth b (data.remove f.key) r = true := by
  unfold conjunctionOfSupplied at h ⊢
  simp only [Bool.and_eq_true, List.all_eq_true, Bool.or_eq_true, Bool.not_eq_true'] at h ⊢
  obtain ⟨⟨hp, hd⟩, hall⟩ := h
  have hproj : data.remove f.key "project_name" = data "project_name" := by
    unfold Data.remove
    rw [if_neg (Filter.key_ne_project_name f)]
  refine ⟨⟨by rw [hproj]; exact hp, hd⟩, ?_⟩
  intro g hg
  by_cases hgf : g = f
  · subst hgf
    left
    simp [Data.remove, truth]
  · have hk := remove_other data f g hgf
    rw [hk, Filter.holds_congr b data _ r g hk]
    exact hall g hg

/-- C8, as stated, fails: a filter that is present in the map with the
empty string as value contributes no predicate. The map asks for the audit
level "", the row has the audit level "warn", and the row satisfies the
rendered condition. -/
theorem present_empty_filter_adds_no_predicate :
    presentInMap (emptyLevelData "filter_audit_level") = true ∧
    warnRow.sm.audit_level = "warn" ∧
    bodyCondition plainBinder emptyLevelData warnRow = some true ∧
    conjunctionOfSupplied presentInMap plainBinder emptyLevelData warnRow = false := by
  decide

/-- C8, amended. For a filter map whose fingerprint value stays inside its
literal, the rendered condition is the conjunction of: the project name is
the requested one, `deleted_at IS NULL`, and the predicate of every filter
whose value is true for the template (not nil, not empty, not zero); a
filter that is absent or has such an empty value contributes nothing. So
soft-deleted rows and rows of other projects never satisfy it, and a row
that satisfies it still does when a filter is removed from the map. -/
theorem body_condition_is_conjunction (b : Binder) (data : Data) (r : JoinedRow)
    (hsafe : fingerprintStaysInLiteral data = true) :
    bodyCondition b data r = some (conjunctionOfSupplied truth b data r) ∧
    (bodyCondition b data r = some true →
      r.sm.deleted_at = none ∧ eqParam b r.p_name (data "project_name") = true) ∧
    (∀ f : Filter, bodyCondition b data r = some true →
      bodyCondition b (data.remove f.key) r = some true) := by
  have he := bodyCondition_eq b data r hsafe
  refine ⟨he, ?_, ?_⟩
  · intro h
    rw [he] at h
    have hc : conjunctionOfSupplied truth b data r = true := Option.some.inj h
    unfold conjunctionOfSupplied at hc
    simp only [Bool.and_eq_true] at hc
    refine ⟨?_, hc.1.1⟩
    have hd := hc.1.2
    cases hx : r.sm.deleted_at with
    | none => rfl
    | some t => rw [hx] at hd; cases hd
  · intro f h
    rw [he] at h
    rw [bodyCondition_eq b _ r (fingerprintStaysInLiteral_remove data f hsafe)]
    exact congrArg some (conjunctionOfSupplied_remove b data r f (Option.some.inj h))

theorem body_condition_is_conjunction_witness :
    fingerprintStaysInLiteral twoFilterData = true ∧
    bodyCondition plainBinder twoFilterData warnRow = some true ∧
    bodyCondition plainBinder (twoFilterData.remove "filter_status") warnRow = some true :=
  ⟨by decide,
   (body_condition_is_conjunction plainBinder twoFilterData warnRow (by decide)).1.trans
     (by decide),
   (body_condition_is_conjunction plainBinder twoFilterData warnRow (by decide)).2.2
     Filter.status
     ((body_condition_is_conjunction plainBinder twoFilterData warnRow (by decide)).1.trans
       (by decide))⟩

/-! ## The fingerprint filter -/

theorem anySuffix_eq_true (f : List Char → Bool) (s : List Char) :
    anySuffix f s = true ↔ ∃ t, t <:+ s ∧ f t = true := by
  induction s with
  | nil =>
    constructor
    · intro h; exact ⟨[], List.suffix_refl [], h⟩
    · rintro ⟨t, ht, hf⟩
      have : t = [] := List.suffix_nil.mp ht
      subst this
      exact hf
  | cons c cs ih =>
    rw [anySuffix, Bool.or_eq_true, ih]
    constructor
    · rintro (h | ⟨t, ht, hf⟩)
      · exact ⟨c :: cs, List.suffix_refl _, h⟩
      · exact ⟨t, List.suffix_cons_iff.mpr (Or.inr ht), hf⟩
    · rintro ⟨t, ht, hf⟩
      rcases List.suffix_cons_iff.mp ht with rfl | h
      · exact Or.inl hf
      · exact Or.inr ⟨t, h, hf⟩

theorem likeMatch_percent (ps s : List Char) :
    likeMatch ('%' :: ps) s = anySuffix (likeMatch ps) s := rfl

theorem likeMatch_cons_cons (p : Char) (ps : List Char) (c : Char) (cs : List Char)
    (hp : p ≠ '%') :
    likeMatch (p :: ps) (c :: cs) = ((decide (p = '_') || decide (p = c)) && likeMatch ps cs) := by
  rw [likeMatch.eq_def]
  simp only [if_neg hp]

theorem likeMatch_cons_nil (p : Char) (ps : List Char) (hp : p ≠ '%') :
    likeMatch (p :: ps) [] = false := by
  rw [likeMatch.eq_def]
  simp only [if_neg hp]

theorem likeMatch_plain_leading (v : List Char) (hv : ∀ c ∈ v, c ≠ '%' ∧ c ≠ '_') :
    ∀ t : List Char, likeMatch (v ++ ['%']) t = true ↔ v <+: t := by
  induction v with
  | nil =>
    intro t
    simp only [List.nil_append, likeMatch_percent, List.nil_prefix, iff_true]
    exact (anySuffix_eq_true _ t).mpr ⟨[], List.nil_suffix, rfl⟩
  | cons c v ih =>
    intro t
    have hc := hv c (List.mem_cons_self c v)
    have ih2 := ih (fun d hd => hv d (List.mem_cons_of_mem c hd))
    rw [List.cons_append]
    cases t with
    | nil => simp [likeMatch_cons_nil _ _ hc.1]
    | cons d ds =>
      rw [likeMatch_cons_cons _ _ _ _ hc.1]
      simp only [Bool.and_eq_true, Bool.or_eq_true, decide_eq_true_eq, ih2 ds,
        List.cons_prefix_cons]
      constructor
      · rintro ⟨h | h, hp⟩
        · exact absurd h hc.2
        · exact ⟨h, hp⟩
      · rintro ⟨h, hp⟩
        exact ⟨Or.inr h, hp⟩

/-- For a fingerprint value without quote, backslash, `%` and `_`, the
predicate of the fingerprint filter is literal substring containment. -/
theorem fingerprintLike_plain_is_substring (v sql_fingerprint : String)
    (hv : ∀ c ∈ v.toList, c ≠ '\'' ∧ c ≠ '\\' ∧ c ≠ '%' ∧ c ≠ '_') :
    fingerprintLike v sql_fingerprint = some (isSubstring v sql_fingerprint) := by
  rw [fingerprintLike_plain v sql_fingerprint (fun c hc => ⟨(hv c hc).1, (hv c hc).2.1⟩)]
  congr 1
  rw [Bool.eq_iff_iff, List.cons_append, likeMatch_percent, anySuffix_eq_true]
  unfold isSubstring
  rw [decide_eq_true_eq, List.infix_iff_prefix_suffix]
  constructor
  · rintro ⟨t, hs, hm⟩
    exact ⟨t, (likeMatch_plain_leading _
      (fun c hc => ⟨(hv c hc).2.2.1, (hv c hc).2.2.2⟩) t).mp hm, hs⟩
  · rintro ⟨t, hp, hs⟩
    exact ⟨t, hs, (likeMatch_plain_leading _
      (fun c hc => ⟨(hv c hc).2.2.1, (hv c hc).2.2.2⟩) t).mpr hp⟩

/-- C9: the code at the failing inputs. The value is printed into the text
of the statement: with the value `a' OR '1` the literal of the rendered
clause ends after `%a` and the rest of the value is read as part of the
statement; with the value `a_c` the predicate holds of the fingerprint
`abc`, which does not contain `a_c`; with the value `%` it holds of a
fingerprint without any `%`. -/
theorem fingerprint_value_is_spliced :
    renderFingerprintClause "a' OR '1" = "AND sm.sql_fingerprint LIKE '%a' OR '1%'" ∧
    readLiteral "%a' OR '1%'".toList = some ("%a".toList, " OR '1%'".toList) ∧
    fingerprintLike "a' OR '1" "abc" = none ∧
    fingerprintLike "a_c" "abc" = some true ∧ isSubstring "a_c" "abc" = false ∧
    fingerprintLike "%" "abc" = some true ∧ isSubstring "%" "abc" = false := by
  decide

end Sqle
